import Mathlib

/-!
Verification development for the x402-flare trading core:
a shallow embedding of the swap-event collector
(`skills/trading/scripts/collectors/swap-collector.py`), the order-flow
analyzer (`skills/trading/scripts/analysis/order_flow.py`) and the state
normalizer (`skills/trading/scripts/state_normalizer.py`), together with
theorems settling the specification's claims about them.

Embedding conventions:
* Python `int` is `ℤ`/`ℕ`; Python `float` arithmetic is embedded as exact `ℚ`
  (or `ℝ` where a square root occurs).
* Wallet addresses and ISO timestamp strings are replaced by order- and
  equality-preserving numeric codes: a swap carries its unix timestamp `ts`,
  from which the code's `datetime[:13]` hour-bucket key is `ts / 3600`, the
  calendar day is `ts / 86400` and the hour of day is `ts % 86400 / 3600`.
* `dict` insertion-order semantics (including `defaultdict`) are modelled by
  association lists that update in place and append new keys at the end.
* `numpy` arrays of length `state_dim` are modelled as index functions
  `ℕ → ℚ`.
-/

/-- Direction tag stored on a decoded swap (the strings `buy_token0` /
`sell_token0` in the Python code). -/
inductive Direction where
  | buy_token0 : Direction
  | sell_token0 : Direction
deriving DecidableEq

/-- One raw ledger log record as returned by the ledger query capability,
restricted to the fields the collector decodes.  `decode_ok` abstracts
whether `process_log` / `get_block` succeed for this record (the collector
skips records whose decoding raises). -/
structure RawLog where
  block : ℤ
  sender : ℕ
  recipient : ℕ
  amount0 : ℤ
  amount1 : ℤ
  tick : ℤ
  ts : ℕ
  decode_ok : Bool
deriving DecidableEq

/-- A decoded swap record as persisted by `SwapCollector.get_swaps`. -/
structure Swap where
  block : ℤ
  recipient : ℕ
  amount0 : ℤ
  amount1 : ℤ
  tick : ℤ
  ts : ℕ
  direction : Direction
deriving DecidableEq

/-- Decoding one raw log into a swap record (`get_swaps`, lines 119-134 of
`swap-collector.py`): the stored direction is `sell_token0` when
`amount0 > 0` and `buy_token0` otherwise. -/
def mkSwap (l : RawLog) : Swap :=
  { block := l.block
    recipient := l.recipient
    amount0 := l.amount0
    amount1 := l.amount1
    tick := l.tick
    ts := l.ts
    direction := if l.amount0 > 0 then Direction.sell_token0 else Direction.buy_token0 }

/-- The ledger as seen through the RPC capability: current head block,
the swap logs stored at each block (for the pool's address and the swap
topic), and which 25-block log queries fail (`get_logs` raising), keyed by
the batch's starting block. -/
structure Chain where
  head : ℤ
  logsAt : ℤ → List RawLog
  batchFails : ℤ → Bool

/-- The starting blocks of the 25-block sub-ranges, i.e. Python's
`range(from_block, to_block + 1, 25)`. -/
def batchStarts (from_block to_block : ℤ) : List ℤ :=
  (List.range (((to_block + 1 - from_block).toNat + 24) / 25)).map
    (fun i : ℕ => from_block + 25 * (i : ℤ))

/-- The inclusive block interval `[lo, hi]` as a list. -/
def blockRange (lo hi : ℤ) : List ℤ :=
  (List.range ((hi + 1 - lo).toNat)).map (fun i : ℕ => lo + (i : ℤ))

/-- All raw logs of one 25-block sub-range query
(`fromBlock = b`, `toBlock = min (b + 24) to_block`). -/
def batchLogs (ch : Chain) (b to_block : ℤ) : List RawLog :=
  (blockRange b (min (b + 24) to_block)).flatMap ch.logsAt

/-- `SwapCollector.get_swaps` (lines 86-140): query each 25-block sub-range,
skipping failed queries without retry, then decode every fetched log,
skipping records whose decoding fails. -/
def get_swaps (ch : Chain) (from_block to_block : ℤ) : List Swap :=
  let logs := (batchStarts from_block to_block).flatMap
    (fun b => if ch.batchFails b then [] else batchLogs ch b to_block)
  logs.filterMap (fun l => if l.decode_ok then some (mkSwap l) else none)

/-- `SwapCollector.collect_pool` (lines 142-178) for one pool, with the
checkpoint made explicit: `last` is the stored last-processed block (`0`
meaning "never synced").  Returns the checkpoint after the call and the
call's return value (the number of decoded swaps).  The checkpoint is
written (to `current_block`) exactly when `from_block < current_block`.
`from_block` is the scan start (lines 149-153): checkpoint + 1 when a
checkpoint exists, else a bounded look-back from the head. -/
def from_block (ch : Chain) (lookback last : ℤ) : ℤ :=
  if last = 0 then ch.head - lookback else last + 1

/-- The body of `collect_pool`: fetch, persist, then unconditionally write
the checkpoint to `current_block` (line 176) unless the range was empty. -/
def collect_pool (ch : Chain) (lookback : ℤ) (last : ℤ) : ℤ × ℕ :=
  if from_block ch lookback last ≥ ch.head then (last, 0)
  else (ch.head, (get_swaps ch (from_block ch lookback last) ch.head).length)

/-- Checkpoint evolution across a sequence of `collect_pool` calls, each
observing its own chain state. -/
def syncSeq (lookback : ℤ) (last : ℤ) (chs : List Chain) : ℤ :=
  chs.foldl (fun c ch => (collect_pool ch lookback c).1) last

/-- One transaction entry of a wallet's `txs` list
(`analyze_wallet_activity`, lines 91-97 of `order_flow.py`). -/
structure TxRec where
  dt : ℕ
  direction : Direction
  amount0 : ℤ
  amount1 : ℤ
  tick : ℤ
deriving DecidableEq

/-- Per-wallet aggregate built by `analyze_wallet_activity`
(lines 51-63 of `order_flow.py`). -/
structure WalletData where
  buy_count : ℕ
  sell_count : ℕ
  buy_volume_token0 : ℤ
  sell_volume_token0 : ℤ
  buy_volume_token1 : ℤ
  sell_volume_token1 : ℤ
  net_token0 : ℤ
  net_token1 : ℤ
  first_seen : Option ℕ
  last_seen : Option ℕ
  txs : List TxRec
deriving DecidableEq

/-- The `defaultdict` default wallet record. -/
def WalletData.empty : WalletData :=
  { buy_count := 0, sell_count := 0
    buy_volume_token0 := 0, sell_volume_token0 := 0
    buy_volume_token1 := 0, sell_volume_token1 := 0
    net_token0 := 0, net_token1 := 0
    first_seen := none, last_seen := none, txs := [] }

/-- The per-swap wallet update of `analyze_wallet_activity`
(lines 65-97 of `order_flow.py`): track first/last seen, classify buy/sell
of token0 by the sign of `amount0`, accumulate absolute volumes, net
positions (`net += -amount`), and the transaction list. -/
def walletUpd (s : Swap) (w : WalletData) : WalletData :=
  let w1 := { w with
    first_seen := if w.first_seen = none then some s.ts else w.first_seen
    last_seen := some s.ts }
  let w2 :=
    if s.amount0 < 0 then
      { w1 with buy_count := w1.buy_count + 1
                buy_volume_token0 := w1.buy_volume_token0 + |s.amount0|
                buy_volume_token1 := w1.buy_volume_token1 + |s.amount1| }
    else
      { w1 with sell_count := w1.sell_count + 1
                sell_volume_token0 := w1.sell_volume_token0 + |s.amount0|
                sell_volume_token1 := w1.sell_volume_token1 + |s.amount1| }
  { w2 with net_token0 := w2.net_token0 + (-s.amount0)
            net_token1 := w2.net_token1 + (-s.amount1)
            txs := w2.txs ++ [{ dt := s.ts, direction := s.direction
                                amount0 := s.amount0, amount1 := s.amount1
                                tick := s.tick }] }

/-- In-place update of an association list, appending a fresh default-based
entry when the key is absent (`defaultdict` + dict insertion order). -/
def upsertWallet (m : List (ℕ × WalletData)) (k : ℕ) (f : WalletData → WalletData) :
    List (ℕ × WalletData) :=
  match m with
  | [] => [(k, f WalletData.empty)]
  | (k', v) :: rest =>
      if k' = k then (k', f v) :: rest else (k', v) :: upsertWallet rest k f

/-- `OrderFlowAnalyzer.analyze_wallet_activity` (lines 49-99): fold the swap
list into the per-recipient aggregate map. -/
def analyze_wallet_activity (swaps : List Swap) : List (ℕ × WalletData) :=
  swaps.foldl (fun m s => upsertWallet m s.recipient (walletUpd s)) []

/-- Find a wallet's aggregate in the map (defaulting like `defaultdict`). -/
def walletOf (m : List (ℕ × WalletData)) (k : ℕ) : WalletData :=
  ((m.find? (fun p => p.1 == k)).map Prod.snd).getD WalletData.empty

/-- Whale behavior label (`identify_whales`, line 120 of `order_flow.py`). -/
inductive Behavior where
  | ACCUMULATING : Behavior
  | DISTRIBUTING : Behavior
  | NEUTRAL : Behavior
deriving DecidableEq

/-- One whale entry returned by `identify_whales` (lines 122-132). -/
structure Whale where
  address : ℕ
  total_volume : ℤ
  net_token0 : ℤ
  net_token1 : ℤ
  buy_count : ℕ
  sell_count : ℕ
  behavior : Behavior
  first_seen : Option ℕ
  last_seen : Option ℕ
deriving DecidableEq

/-- Python's `int()` on an exact value: truncation toward zero. -/
def pyint (q : ℚ) : ℤ := if 0 ≤ q then ⌊q⌋ else ⌈q⌉

/-- The descending-by-volume comparison used to rank wallets
(`volumes.sort(key=..., reverse=True)`). -/
def volGE (a b : ℕ × ℤ × WalletData) : Prop := b.2.1 ≤ a.2.1

instance : DecidableRel volGE := fun a b => inferInstanceAs (Decidable (b.2.1 ≤ a.2.1))

instance : IsTotal (ℕ × ℤ × WalletData) volGE := ⟨fun a b => le_total b.2.1 a.2.1⟩

instance : IsTrans (ℕ × ℤ × WalletData) volGE :=
  ⟨fun _ _ _ h1 h2 => le_trans h2 h1⟩

/-- Building one whale record from a ranked `(addr, volume, data)` triple
(lines 118-132 of `order_flow.py`). -/
def mkWhale (t : ℕ × ℤ × WalletData) : Whale :=
  { address := t.1
    total_volume := t.2.1
    net_token0 := t.2.2.net_token0
    net_token1 := t.2.2.net_token1
    buy_count := t.2.2.buy_count
    sell_count := t.2.2.sell_count
    behavior :=
      if t.2.2.net_token0 > 0 then Behavior.ACCUMULATING
      else if t.2.2.net_token0 < 0 then Behavior.DISTRIBUTING
      else Behavior.NEUTRAL
    first_seen := t.2.2.first_seen
    last_seen := t.2.2.last_seen }

/-- `OrderFlowAnalyzer.identify_whales` (lines 101-134): rank wallets by
total token0 volume descending (stable sort) and keep the top
`max(1, int(N * pct / 100))` of them. -/
def identify_whales (wa : List (ℕ × WalletData)) (threshold_pct : ℚ) : List Whale :=
  match wa with
  | [] => []
  | _ =>
    let volumes := wa.map
      (fun p => (p.1, p.2.buy_volume_token0 + p.2.sell_volume_token0, p.2))
    let sorted := List.insertionSort volGE volumes
    let whale_count : ℕ :=
      (max 1 (pyint ((wa.length : ℚ) * threshold_pct / 100))).toNat
    (sorted.take whale_count).map mkWhale

/-- The running totals built by the loop of `compute_order_flow_metrics`
(lines 141-160 of `order_flow.py`); `hourly` is the insertion-ordered
`hourly_flow` map from hour bucket to (buy, sell) volume. -/
structure FlowTotals where
  total_buy_volume : ℤ
  total_sell_volume : ℤ
  buy_count : ℕ
  sell_count : ℕ
  hourly : List (ℕ × ℤ × ℤ)
deriving DecidableEq

/-- In-place update of the hourly-flow map (`defaultdict` semantics). -/
def upsertHour (m : List (ℕ × ℤ × ℤ)) (k : ℕ) (f : ℤ × ℤ → ℤ × ℤ) :
    List (ℕ × ℤ × ℤ) :=
  match m with
  | [] => [(k, f (0, 0))]
  | (k', v) :: rest =>
      if k' = k then (k', f v) :: rest else (k', v) :: upsertHour rest k f

/-- One iteration of the metrics loop (lines 149-160): classify by the sign
of `amount0` and accumulate totals and the hourly buckets; the hour bucket
key is `datetime[:13]`, i.e. the event's UTC hour `ts / 3600`. -/
def flowStep (t : FlowTotals) (s : Swap) : FlowTotals :=
  if s.amount0 < 0 then
    { t with total_buy_volume := t.total_buy_volume + |s.amount0|
             buy_count := t.buy_count + 1
             hourly := upsertHour t.hourly (s.ts / 3600)
               (fun p => (p.1 + |s.amount0|, p.2)) }
  else
    { t with total_sell_volume := t.total_sell_volume + |s.amount0|
             sell_count := t.sell_count + 1
             hourly := upsertHour t.hourly (s.ts / 3600)
               (fun p => (p.1, p.2 + |s.amount0|)) }

/-- The totals after the whole metrics loop. -/
def flowTotals (swaps : List Swap) : FlowTotals :=
  swaps.foldl flowStep
    { total_buy_volume := 0, total_sell_volume := 0
      buy_count := 0, sell_count := 0, hourly := [] }

/-- Python `l[a:]` (start index possibly negative). -/
def pysliceFrom (l : List α) (a : ℤ) : List α :=
  if a < 0 then l.drop (l.length - (-a).toNat) else l.drop a.toNat

/-- Python `l[:a]` (stop index possibly negative). -/
def pysliceTo (l : List α) (a : ℤ) : List α :=
  if a < 0 then l.take (l.length - (-a).toNat) else l.take a.toNat

/-- `hourly_flow[h]['buy'] - hourly_flow[h]['sell']` for one bucket. -/
def hourNet (hl : List (ℕ × ℤ × ℤ)) (h : ℕ) : ℤ :=
  (((hl.find? (fun p => p.1 == h)).map Prod.snd).getD (0, 0)).1 -
    (((hl.find? (fun p => p.1 == h)).map Prod.snd).getD (0, 0)).2

/-- The sorted list of hourly bucket keys (`sorted(hourly_flow.keys())`;
ISO hour strings sort chronologically, so sorting the numeric hour codes is
order-equivalent). -/
def sortedHours (swaps : List Swap) : List ℕ :=
  List.insertionSort (fun a b => a ≤ b) ((flowTotals swaps).hourly.map Prod.fst)

/-- The trend computation of `compute_order_flow_metrics` (lines 178-192 of
`order_flow.py`), before the 3-decimal display rounding: slice the sorted
hour keys into a recent and an older window (Python slices `[-6:]`/`[:-6]`
when at least 6 buckets exist, else `[-len//2:]`/`[:len//2]`), sum each
window's net flow, and divide the change by `|older|`, degenerating to the
sign of the recent net flow when `older` is zero, and to `0` when fewer
than 2 buckets exist. -/
def trendChange (swaps : List Swap) : ℚ :=
  let hourly := (flowTotals swaps).hourly
  let sorted_hours := sortedHours swaps
  let n := sorted_hours.length
  if 2 ≤ n then
    let recent_hours := if 6 ≤ n then pysliceFrom sorted_hours (-6)
      else pysliceFrom sorted_hours (Int.fdiv (-(n : ℤ)) 2)
    let older_hours := if 6 ≤ n then pysliceTo sorted_hours (-6)
      else pysliceTo sorted_hours (Int.fdiv (n : ℤ) 2)
    let recent_net := (recent_hours.map (hourNet hourly)).sum
    let older_net := (older_hours.map (hourNet hourly)).sum
    if older_net ≠ 0 then ((recent_net - older_net : ℤ) : ℚ) / |(older_net : ℚ)|
    else if 0 < recent_net then 1
    else if recent_net < 0 then -1
    else 0
  else 0

/-- Pattern label of one time window
(`detect_accumulation_distribution`, lines 234-243 of `order_flow.py`). -/
inductive Pattern where
  | ACCUMULATION : Pattern
  | DISTRIBUTION : Pattern
  | RETAIL_BUYING : Pattern
  | RETAIL_SELLING : Pattern
  | MIXED : Pattern
deriving DecidableEq

/-- The window classification of `detect_accumulation_distribution`
(lines 233-243): strict inequalities, tested in this order. -/
def classifyPattern (buy_vol sell_vol : ℤ) (buy_count sell_count : ℕ) : Pattern :=
  if (buy_vol : ℚ) > (sell_vol : ℚ) * 1.5 ∧ buy_count > sell_count then
    Pattern.ACCUMULATION
  else if (sell_vol : ℚ) > (buy_vol : ℚ) * 1.5 ∧ sell_count > buy_count then
    Pattern.DISTRIBUTION
  else if buy_count > sell_count * 2 then Pattern.RETAIL_BUYING
  else if sell_count > buy_count * 2 then Pattern.RETAIL_SELLING
  else Pattern.MIXED

/-- One analyzed window entry (lines 245-252 of `order_flow.py`). -/
structure WindowPattern where
  window : ℕ × ℕ
  buy_volume : ℤ
  sell_volume : ℤ
  buy_count : ℕ
  sell_count : ℕ
  pattern : Pattern
deriving DecidableEq

/-- The grouping key of `detect_accumulation_distribution` (line 217):
calendar day and `hour // window_hours`, both derived here from the unix
timestamp. -/
def windowKey (window_hours : ℕ) (s : Swap) : ℕ × ℕ :=
  (s.ts / 86400, (s.ts % 86400 / 3600) / window_hours)

/-- In-place update of the per-window (buys, sells) lists. -/
def upsertWindow (m : List ((ℕ × ℕ) × List ℤ × List ℤ)) (k : ℕ × ℕ)
    (f : List ℤ × List ℤ → List ℤ × List ℤ) : List ((ℕ × ℕ) × List ℤ × List ℤ) :=
  match m with
  | [] => [(k, f ([], []))]
  | (k', v) :: rest =>
      if k' = k then (k', f v) :: rest else (k', v) :: upsertWindow rest k f

/-- The grouping loop of `detect_accumulation_distribution` (lines 213-223):
append `abs(amount0)` to the window's buys when `amount0 < 0`, else to its
sells. -/
def windowGroups (swaps : List Swap) (window_hours : ℕ) :
    List ((ℕ × ℕ) × List ℤ × List ℤ) :=
  swaps.foldl
    (fun m s =>
      upsertWindow m (windowKey window_hours s)
        (fun p => if s.amount0 < 0 then (p.1 ++ [|s.amount0|], p.2)
                  else (p.1, p.2 ++ [|s.amount0|])))
    []

/-- Lexicographic order on window keys (`sorted(windows.items())` sorts the
day-plus-bucket keys; the classification recorded per window does not
depend on this order). -/
def keyLE (a b : ℕ × ℕ) : Prop := a.1 < b.1 ∨ (a.1 = b.1 ∧ a.2 ≤ b.2)

instance : DecidableRel keyLE := fun a b =>
  inferInstanceAs (Decidable (a.1 < b.1 ∨ (a.1 = b.1 ∧ a.2 ≤ b.2)))

/-- `detect_accumulation_distribution` (lines 207-252 of `order_flow.py`),
returning the per-window pattern list. -/
def detect_accumulation_distribution (swaps : List Swap) (window_hours : ℕ) :
    List WindowPattern :=
  (List.insertionSort (fun a b => keyLE a.1 b.1) (windowGroups swaps window_hours)).map
    (fun w =>
      { window := w.1
        buy_volume := w.2.1.sum
        sell_volume := w.2.2.sum
        buy_count := w.2.1.length
        sell_count := w.2.2.length
        pattern := classifyPattern w.2.1.sum w.2.2.sum w.2.1.length w.2.2.length })

/-- The state of `StateNormalizer` (`state_normalizer.py`, lines 19-26):
note that `var` is initialized to `np.ones`, not zeros.  The length
`state_dim` arrays are modelled as index functions. -/
structure StateNormalizer where
  state_dim : ℕ
  clip_range : ℚ
  mean : ℕ → ℚ
  var : ℕ → ℚ
  count : ℕ

/-- `StateNormalizer.__init__`. -/
def StateNormalizer.init (dim : ℕ) (clip : ℚ) : StateNormalizer :=
  { state_dim := dim, clip_range := clip
    mean := fun _ => 0, var := fun _ => 1, count := 0 }

/-- `StateNormalizer.update` (lines 147-154): Welford step — `delta` uses
the pre-update mean, `delta2` the post-update mean. -/
def StateNormalizer.update (s : StateNormalizer) (x : ℕ → ℚ) : StateNormalizer :=
  let cnt := s.count + 1
  let mean' := fun i => s.mean i + (x i - s.mean i) / (cnt : ℚ)
  { s with count := cnt
           mean := mean'
           var := fun i => s.var i + (x i - s.mean i) * (x i - mean' i) }

/-- A sequence of `update` calls. -/
def normUpdates (s : StateNormalizer) (xs : List (ℕ → ℚ)) : StateNormalizer :=
  xs.foldl StateNormalizer.update s

/-- `np.clip(x, lo, hi)`. -/
def npclip (x lo hi : ℚ) : ℚ := min hi (max lo x)

/-- `np.clip` over the reals (for the running normalizer, whose scale is a
square root). -/
noncomputable def npclipR (x lo hi : ℝ) : ℝ := min hi (max lo x)

/-- `StateNormalizer.normalize_running` (lines 156-164): with fewer than 2
observations return the input unchanged, else divide the deviation from the
running mean by `sqrt(var / (count - 1) + 1e-8)` and clip. -/
noncomputable def normalizeRunning (s : StateNormalizer) (x : ℕ → ℚ) : ℕ → ℝ :=
  if s.count < 2 then fun i => (x i : ℝ)
  else fun i =>
    npclipR (((x i : ℚ) - s.mean i : ℚ) /
        Real.sqrt (((s.var i : ℚ) : ℝ) / ((s.count : ℝ) - 1) + 1 / 100000000))
      (-(s.clip_range : ℝ)) (s.clip_range : ℝ)

/-- The fixed `(low, high)` ranges table of `normalize_by_range`
(lines 87-130 of `state_normalizer.py`), in slot order. -/
def normalRanges : List (ℚ × ℚ) :=
  [(1/10000, 1000), (1000, 10^12), (0, 10^20), (0, 10^20), (0, 10^9),
   (0, 10^7), (0, 1), (-1, 1), (-900000, 900000), (-900000, 900000),
   (-900000, 900000),
   (0, 1/2), (0, 1), (0, 2), (-1, 1), (0, 10), (0, 100), (-1, 1), (-1, 1),
   (-900000, 900000), (-900000, 900000), (0, 10^12), (0, 10^9), (0, 10^9),
   (0, 10^9), (-1, 1), (0, 10^6), (0, 1),
   (0, 10^9), (0, 10^9), (0, 10^9), (0, 10^6), (-10^6, 10^6), (-5, 5), (0, 1)]

/-- The pre-clip slot normalization of `normalize_by_range` (lines 136-140):
`2 * (x - low) / (high - low) - 1` when `high > low`, else `0`. -/
def preNorm (low high x : ℚ) : ℚ :=
  if high > low then 2 * (x - low) / (high - low) - 1 else 0

/-- One slot of `normalize_by_range`: clip the range-normalized value when
the slot has a table row (the loop `break`s past the table's end, leaving
the `np.zeros_like` default `0`). -/
def slotNorm (clip x : ℚ) : Option (ℚ × ℚ) → ℚ
  | some (low, high) => npclip (preNorm low high x) (-clip) clip
  | none => 0

/-- `StateNormalizer.normalize_by_range` (lines 78-145): slot `i` of the
output is the clipped range-normalized input for `i` below the ranges
table's length, and stays at the `np.zeros_like` default `0` beyond it. -/
def normalize_by_range (clip : ℚ) (state : List ℚ) : List ℚ :=
  (List.range state.length).map (fun i =>
    slotNorm clip (state.getD i 0) normalRanges[i]?)

/-- The JSON object written by `StateNormalizer.save` (lines 166-176) and
read back by `StateNormalizer.load` (lines 178-187). -/
structure NormalizerFile where
  state_dim : ℕ
  clip_range : ℚ
  mean : ℕ → ℚ
  var : ℕ → ℚ
  count : ℕ

/-- `StateNormalizer.save`: record the five state fields. -/
def StateNormalizer.save (s : StateNormalizer) : NormalizerFile :=
  { state_dim := s.state_dim, clip_range := s.clip_range
    mean := s.mean, var := s.var, count := s.count }

/-- `StateNormalizer.load`: overwrite every state field from the file. -/
def StateNormalizer.load (s : StateNormalizer) (d : NormalizerFile) : StateNormalizer :=
  { s with state_dim := d.state_dim, clip_range := d.clip_range
           mean := d.mean, var := d.var, count := d.count }

/-- Trend computation following the specification claim's words, for
comparison with the code's `trendChange`: the recent window is the most
recent 6 hourly buckets, or the most recent half of the buckets when fewer
than 12 buckets exist; the older window is all preceding buckets; same
division and degenerate cases as the code. -/
def claimTrendChange (swaps : List Swap) : ℚ :=
  let hourly := (flowTotals swaps).hourly
  let sorted_hours := sortedHours swaps
  let n := sorted_hours.length
  if 2 ≤ n then
    let recent_hours := if 12 ≤ n then pysliceFrom sorted_hours (-6)
      else pysliceFrom sorted_hours (Int.fdiv (-(n : ℤ)) 2)
    let older_hours := if 12 ≤ n then pysliceTo sorted_hours (-6)
      else pysliceTo sorted_hours (Int.fdiv (n : ℤ) 2)
    let recent_net := (recent_hours.map (hourNet hourly)).sum
    let older_net := (older_hours.map (hourNet hourly)).sum
    if older_net ≠ 0 then ((recent_net - older_net : ℤ) : ℚ) / |(older_net : ℚ)|
    else if 0 < recent_net then 1
    else if recent_net < 0 then -1
    else 0
  else 0

/-- Swap literal used by concrete test inputs, with the direction derived
exactly as `get_swaps` derives it. -/
def swapOf (r : ℕ) (a0 a1 : ℤ) (ts : ℕ) : Swap :=
  { block := 0, recipient := r, amount0 := a0, amount1 := a1, tick := 0, ts := ts
    direction := if a0 > 0 then Direction.sell_token0 else Direction.buy_token0 }

/-- Concrete input for the trend-window claim: eight consecutive hourly
buckets, all of zero net flow except the third (net +10). -/
def c3swaps : List Swap :=
  [swapOf 1 0 0 0, swapOf 1 0 0 3600, swapOf 1 (-10) 0 7200, swapOf 1 0 0 10800,
   swapOf 1 0 0 14400, swapOf 1 0 0 18000, swapOf 1 0 0 21600, swapOf 1 0 0 25200]

/-- A raw log with `amount0 = 0`. -/
def zeroLog : RawLog :=
  { block := 0, sender := 0, recipient := 0, amount0 := 0, amount1 := 0
    tick := 0, ts := 0, decode_ok := true }

/-- A raw log with `amount0 = -5` stored at block 0. -/
def buyLog : RawLog :=
  { block := 0, sender := 0, recipient := 0, amount0 := -5, amount1 := 3
    tick := 0, ts := 0, decode_ok := true }

/-- A chain whose only swap log is `buyLog`, with no failing batches. -/
def oneLogChain : Chain :=
  { head := 30
    logsAt := fun b => if b = 0 then [buyLog] else []
    batchFails := fun _ => false }

/-- An empty chain at head 30. -/
def emptyChain : Chain :=
  { head := 30, logsAt := fun _ => [], batchFails := fun _ => false }

/-- A swap with `amount0 = 0` but `amount1 = -7`. -/
def zeroAmt0Swap : Swap := swapOf 7 0 (-7) 5

/-- A chain whose only swap log is `zeroLog`, with no failing batches. -/
def zeroLogChain : Chain :=
  { head := 30
    logsAt := fun b => if b = 0 then [zeroLog] else []
    batchFails := fun _ => false }

/-- One swap used to exercise `detect_accumulation_distribution`. -/
def c5swaps : List Swap := [swapOf 1 (-5) 0 0]

/-- The single window produced by `c5swaps` with 24-hour windows. -/
def c5window : WindowPattern :=
  { window := (0, 0), buy_volume := 5, sell_volume := 0
    buy_count := 1, sell_count := 0, pattern := Pattern.ACCUMULATION }

/-- The recent-window size the trend computation actually uses: the last 6
buckets when at least 6 exist, else the last `⌈n/2⌉` buckets. -/
def trendWindow (n : ℕ) : ℕ := if 6 ≤ n then 6 else (n + 1) / 2

/-- The trend quotient with its zero-denominator degeneration (sign of the
recent net flow). -/
def trendFormula (recent_net older_net : ℤ) : ℚ :=
  if older_net ≠ 0 then ((recent_net - older_net : ℤ) : ℚ) / |(older_net : ℚ)|
  else if 0 < recent_net then 1
  else if recent_net < 0 then -1
  else 0

/-- C2 counterexample: a decoded raw log with `amount0 = 0` is stored with
direction `buy_token0` by `get_swaps`, although `amount0 < 0` fails — the
code tests `amount0 > 0`, not `amount0 < 0`, so the claimed biconditional
fails at zero. -/
theorem mkSwap_zero_amount0_direction_cex :
    mkSwap zeroLog ∈ get_swaps zeroLogChain 0 0 ∧
    (mkSwap zeroLog).direction = Direction.buy_token0 ∧
    ¬ (mkSwap zeroLog).amount0 < 0 := by
  apply of_decide_eq_true; with_unfolding_all rfl

/-- C2 (amended): every swap decoded by `get_swaps` has direction
`buy_token0` iff `amount0 ≤ 0` (so `amount0 = 0` is stored as a buy), and
`sell_token0` iff `amount0 > 0`. -/
theorem get_swaps_direction_sign (ch : Chain) (fb tb : ℤ) (s : Swap)
    (hs : s ∈ get_swaps ch fb tb) :
    ((s.direction = Direction.buy_token0 ↔ s.amount0 ≤ 0) ∧
      (s.direction = Direction.sell_token0 ↔ 0 < s.amount0)) := by
  obtain ⟨l, -, hfl⟩ := List.mem_filterMap.mp hs
  by_cases hok : l.decode_ok
  · rw [if_pos hok, Option.some.injEq] at hfl
    subst hfl
    by_cases h0 : l.amount0 > 0 <;>
      simp [mkSwap, h0] <;> omega
  · rw [if_neg hok] at hfl
    exact absurd hfl (by simp)

theorem get_swaps_direction_sign_witness :
    (mkSwap buyLog).direction = Direction.buy_token0 ↔ (mkSwap buyLog).amount0 ≤ 0 :=
  (get_swaps_direction_sign oneLogChain 0 0 (mkSwap buyLog)
    (by apply of_decide_eq_true; with_unfolding_all rfl)).1

/-- C9: saving a normalizer and loading the result into any normalizer
restores all five fields exactly, so `normalize_running` is unchanged by
the round trip. -/
theorem normalizer_save_load_roundtrip (n m : StateNormalizer) (x : ℕ → ℚ) :
    m.load n.save = n ∧
      normalizeRunning (m.load n.save) x = normalizeRunning n x := by
  have h : m.load n.save = n := rfl
  exact ⟨h, by rw [h]⟩

/-- C5: the window classifier follows the claimed strict-inequality
precedence order (each label holds exactly when its guard holds and every
earlier guard fails), the bucket (150, 100, 5, 3) is `MIXED` while
(151, 100, 5, 3) is `ACCUMULATION`, and every window entry produced by
`detect_accumulation_distribution` carries the classification of its own
volumes and counts. -/
theorem detect_pattern_precedence (b s : ℤ) (bc sc : ℕ) (swaps : List Swap)
    (wh : ℕ) (w : WindowPattern)
    (hw : w ∈ detect_accumulation_distribution swaps wh) :
    classifyPattern 150 100 5 3 = Pattern.MIXED ∧
    classifyPattern 151 100 5 3 = Pattern.ACCUMULATION ∧
    (classifyPattern b s bc sc = Pattern.ACCUMULATION ↔
      ((b : ℚ) > (s : ℚ) * 1.5 ∧ bc > sc)) ∧
    (classifyPattern b s bc sc = Pattern.DISTRIBUTION ↔
      (¬ ((b : ℚ) > (s : ℚ) * 1.5 ∧ bc > sc) ∧
        ((s : ℚ) > (b : ℚ) * 1.5 ∧ sc > bc))) ∧
    (classifyPattern b s bc sc = Pattern.RETAIL_BUYING ↔
      (¬ ((b : ℚ) > (s : ℚ) * 1.5 ∧ bc > sc) ∧
        ¬ ((s : ℚ) > (b : ℚ) * 1.5 ∧ sc > bc) ∧ bc > sc * 2)) ∧
    (classifyPattern b s bc sc = Pattern.RETAIL_SELLING ↔
      (¬ ((b : ℚ) > (s : ℚ) * 1.5 ∧ bc > sc) ∧
        ¬ ((s : ℚ) > (b : ℚ) * 1.5 ∧ sc > bc) ∧
        ¬ (bc > sc * 2) ∧ sc > bc * 2)) ∧
    (classifyPattern b s bc sc = Pattern.MIXED ↔
      (¬ ((b : ℚ) > (s : ℚ) * 1.5 ∧ bc > sc) ∧
        ¬ ((s : ℚ) > (b : ℚ) * 1.5 ∧ sc > bc) ∧
        ¬ (bc > sc * 2) ∧ ¬ (sc > bc * 2))) ∧
    w.pattern = classifyPattern w.buy_volume w.sell_volume w.buy_count w.sell_count := by
  refine ⟨?_, ?_, ?_, ?_, ?_, ?_, ?_, ?_⟩
  · apply of_decide_eq_true; with_unfolding_all rfl
  · apply of_decide_eq_true; with_unfolding_all rfl
  · unfold classifyPattern; split_ifs <;> simp_all
  · unfold classifyPattern; split_ifs <;> simp_all
  · unfold classifyPattern; split_ifs <;> simp_all
  · unfold classifyPattern; split_ifs <;> simp_all
  · unfold classifyPattern; split_ifs <;> simp_all
  · obtain ⟨g, -, rfl⟩ := List.mem_map.mp hw
    rfl

theorem detect_pattern_precedence_witness :
    classifyPattern 150 100 5 3 = Pattern.MIXED :=
  (detect_pattern_precedence 150 100 5 3 c5swaps 24 c5window
    (by apply of_decide_eq_true; with_unfolding_all rfl)).1

/-- Decoding skips exactly the records whose decoding fails, so the decoded
count is the count of decodable records. -/
theorem filterMap_decode_length (l : List RawLog) :
    (l.filterMap (fun r => if r.decode_ok then some (mkSwap r) else none)).length =
      (l.filter (fun r => r.decode_ok)).length := by
  induction l with
  | nil => rfl
  | cons a t ih =>
    by_cases h : a.decode_ok <;>
      simp [List.filterMap_cons, List.filter_cons, h, ih]

/-- The decoded count over concatenated batches is the sum of the per-batch
decodable counts. -/
theorem flatMap_filterMap_length (bs : List ℤ) (g : ℤ → List RawLog) :
    ((bs.flatMap g).filterMap
        (fun r => if r.decode_ok then some (mkSwap r) else none)).length =
      (bs.map (fun b => ((g b).filter (fun r => r.decode_ok)).length)).sum := by
  induction bs with
  | nil => rfl
  | cons b t ih =>
    simp [List.flatMap_cons, List.filterMap_append, ih, filterMap_decode_length]

theorem mem_blockRange (lo hi blk : ℤ) :
    blk ∈ blockRange lo hi ↔ lo ≤ blk ∧ blk ≤ hi := by
  constructor
  · intro h
    simp only [blockRange] at h
    obtain ⟨i, hi2, rfl⟩ := List.mem_map.mp h
    rw [List.mem_range] at hi2
    omega
  · rintro ⟨h1, h2⟩
    simp only [blockRange]
    refine List.mem_map.mpr ⟨(blk - lo).toNat, ?_, ?_⟩
    · rw [List.mem_range]
      omega
    · omega

theorem mem_batchStarts (fb tb b : ℤ) :
    b ∈ batchStarts fb tb ↔
      ∃ i : ℕ, i < ((tb + 1 - fb).toNat + 24) / 25 ∧ b = fb + 25 * i := by
  constructor
  · intro h
    simp only [batchStarts] at h
    obtain ⟨i, hi2, rfl⟩ := List.mem_map.mp h
    rw [List.mem_range] at hi2
    exact ⟨i, hi2, rfl⟩
  · rintro ⟨i, hi2, rfl⟩
    simp only [batchStarts]
    exact List.mem_map.mpr ⟨i, List.mem_range.mpr hi2, rfl⟩

/-- On a well-formed chain (each log carries the block it is stored at),
every decoded swap comes from a non-failing sub-range that covers its
block. -/
theorem get_swaps_mem_block (ch : Chain) (fb tb : ℤ) (s : Swap)
    (hwf : ∀ blk l, l ∈ ch.logsAt blk → l.block = blk)
    (hs : s ∈ get_swaps ch fb tb) :
    ∃ b ∈ batchStarts fb tb, ch.batchFails b = false ∧
      b ≤ s.block ∧ s.block ≤ min (b + 24) tb := by
  simp only [get_swaps] at hs
  obtain ⟨l, hl, hfl⟩ := List.mem_filterMap.mp hs
  obtain ⟨b, hb, hlb⟩ := List.mem_flatMap.mp hl
  by_cases hf : ch.batchFails b
  · rw [if_pos hf] at hlb
    exact absurd hlb (List.not_mem_nil l)
  · rw [if_neg hf] at hlb
    obtain ⟨blk, hblk, hl2⟩ := List.mem_flatMap.mp hlb
    have hb2 := (mem_blockRange _ _ _).mp hblk
    have hblock : s.block = blk := by
      by_cases hok : l.decode_ok
      · rw [if_pos hok, Option.some.injEq] at hfl
        subst hfl
        exact hwf blk l hl2
      · rw [if_neg hok] at hfl
        exact absurd hfl (by simp)
    have hf' : ch.batchFails b = false := by simpa using hf
    exact ⟨b, hb, hf', hblock ▸ hb2.1, hblock ▸ hb2.2⟩

/-- Distinct 25-block sub-ranges of the same scan cover disjoint blocks. -/
theorem batch_intervals_disjoint (fb tb b1 b2 blk : ℤ)
    (h1 : b1 ∈ batchStarts fb tb) (h2 : b2 ∈ batchStarts fb tb) (hne : b1 ≠ b2)
    (hin1 : b1 ≤ blk ∧ blk ≤ min (b1 + 24) tb)
    (hin2 : b2 ≤ blk ∧ blk ≤ min (b2 + 24) tb) : False := by
  obtain ⟨i, -, rfl⟩ := (mem_batchStarts _ _ _).mp h1
  obtain ⟨j, -, rfl⟩ := (mem_batchStarts _ _ _).mp h2
  have e1 := le_min_iff.mp hin1.2
  have e2 := le_min_iff.mp hin2.2
  have := hin1.1
  have := hin2.1
  omega

/-- C1: whenever `collect_pool` runs with `from_block < current_block`, it
writes the checkpoint to `current_block` and returns the decoded-event
count (the sum over the non-failing 25-block sub-ranges only), even when
sub-range queries failed and were skipped; no decoded swap comes from a
failed sub-range's blocks, and every block of a failed sub-range is at most
the new checkpoint, hence permanently passed over. -/
theorem collect_pool_advances_past_failed_batches (ch : Chain) (lookback last : ℤ)
    (hwf : ∀ blk l, l ∈ ch.logsAt blk → l.block = blk)
    (hfb : from_block ch lookback last < ch.head) :
    (collect_pool ch lookback last).1 = ch.head ∧
    (collect_pool ch lookback last).2 =
      (get_swaps ch (from_block ch lookback last) ch.head).length ∧
    (collect_pool ch lookback last).2 =
      ((batchStarts (from_block ch lookback last) ch.head).map
        (fun b => if ch.batchFails b then 0
          else ((batchLogs ch b ch.head).filter (fun r => r.decode_ok)).length)).sum ∧
    ∀ b ∈ batchStarts (from_block ch lookback last) ch.head,
      ch.batchFails b = true →
        (∀ s ∈ get_swaps ch (from_block ch lookback last) ch.head,
          ¬ (b ≤ s.block ∧ s.block ≤ min (b + 24) ch.head)) ∧
        ∀ blk : ℤ, b ≤ blk → blk ≤ min (b + 24) ch.head →
          blk ≤ (collect_pool ch lookback last).1 := by
  have hno : ¬ from_block ch lookback last ≥ ch.head := not_le.mpr hfb
  have h1 : (collect_pool ch lookback last).1 = ch.head := by
    simp [collect_pool, hno]
  have h2 : (collect_pool ch lookback last).2 =
      (get_swaps ch (from_block ch lookback last) ch.head).length := by
    simp [collect_pool, hno]
  refine ⟨h1, h2, ?_, ?_⟩
  · rw [h2]
    simp only [get_swaps]
    rw [flatMap_filterMap_length]
    apply congrArg List.sum
    apply List.map_congr_left
    intro b _
    by_cases hfl : ch.batchFails b <;> simp [hfl]
  · intro b hb hfail
    constructor
    · intro s hs hcontra
      obtain ⟨b', hb', hgood, hs1, hs2⟩ := get_swaps_mem_block ch _ _ s hwf hs
      have hne : b ≠ b' := by
        intro he
        subst he
        rw [hfail] at hgood
        cases hgood
      exact batch_intervals_disjoint _ _ _ _ _ hb hb' hne hcontra ⟨hs1, hs2⟩
    · intro blk hblk1 hblk2
      rw [h1]
      exact le_trans hblk2 (min_le_right _ _)

theorem collect_pool_advances_past_failed_batches_witness :
    (collect_pool emptyChain 30 0).1 = 30 := by
  have h := collect_pool_advances_past_failed_batches emptyChain 30 0
    (by intro blk l hl; simp [emptyChain] at hl) (by decide)
  exact h.1

/-- Slot `i` of `normalize_by_range` in closed form. -/
theorem normalize_by_range_getD (clip : ℚ) (state : List ℚ) (i : ℕ) :
    (normalize_by_range clip state).getD i 0 =
      if i < state.length then slotNorm clip (state.getD i 0) normalRanges[i]?
      else 0 := by
  rw [normalize_by_range, List.getD_eq_getElem?_getD, List.getElem?_map]
  by_cases h : i < state.length
  · rw [List.getElem?_range h]
    simp [h]
  · have hn : (List.range state.length)[i]? = none := by
      rw [List.getElem?_eq_none_iff, List.length_range]
      omega
    rw [hn]
    simp [h]

/-- C7: with the fixed ranges table, a slot input exactly at `low` maps to
-1 and exactly at `high` maps to +1 before clipping (whenever `low < high`,
which holds for every row of the table), a degenerate slot with
`high = low` outputs 0, and every component of the returned vector lies in
`[-clip_range, clip_range]` whenever the clip bound is nonnegative. -/
theorem normalize_by_range_bounds (clip low high c y : ℚ) (state : List ℚ) (i : ℕ)
    (hclip : 0 ≤ clip) (hmem : (low, high) ∈ normalRanges) (hlh : low < high) :
    preNorm low high low = -1 ∧
    preNorm low high high = 1 ∧
    preNorm c c y = 0 ∧
    (normalRanges.all fun p => decide (p.1 < p.2)) = true ∧
    -clip ≤ (normalize_by_range clip state).getD i 0 ∧
    (normalize_by_range clip state).getD i 0 ≤ clip := by
  have hd : high - low ≠ 0 := sub_ne_zero.mpr (ne_of_gt hlh)
  refine ⟨?_, ?_, ?_, ?_, ?_, ?_⟩
  · simp [preNorm, hlh]
  · rw [preNorm, if_pos hlh]
    field_simp
    norm_num
  · simp [preNorm]
  · rw [List.all_eq_true]
    intro p hp
    rw [decide_eq_true_iff]
    fin_cases hp <;> norm_num
  · have hneg : -clip ≤ 0 := neg_nonpos.mpr hclip
    rw [normalize_by_range_getD]
    split
    · cases normalRanges[i]? with
      | none => exact hneg
      | some p =>
        obtain ⟨lo, hi⟩ := p
        simp only [slotNorm, npclip]
        exact le_min (by linarith) (le_max_left _ _)
    · exact hneg
  · rw [normalize_by_range_getD]
    split
    · cases normalRanges[i]? with
      | none => exact hclip
      | some p =>
        obtain ⟨lo, hi⟩ := p
        simp only [slotNorm, npclip]
        exact min_le_left _ _
    · exact hclip

theorem normalize_by_range_bounds_witness :
    preNorm (-1) 1 (-1) = -1 :=
  (normalize_by_range_bounds 10 (-1) 1 5 2 [(1 : ℚ)/2] 0 (by norm_num)
    (by norm_num [normalRanges]) (by norm_num)).1

/-- One `collect_pool` call on a chain with a nonnegative head, starting
from a nonnegative checkpoint, never moves the checkpoint down: it leaves
it unchanged or writes a strictly larger `current_block`. -/
theorem collect_pool_step (ch : Chain) (lookback last : ℤ)
    (hh : 0 ≤ ch.head) (hl : 0 ≤ last) :
    last ≤ (collect_pool ch lookback last).1 ∧
    0 ≤ (collect_pool ch lookback last).1 ∧
    ((collect_pool ch lookback last).1 = last ∨
      ((collect_pool ch lookback last).1 = ch.head ∧ last < ch.head)) := by
  simp only [collect_pool, from_block]
  split_ifs <;> simp <;> omega

/-- C8: across any sequence of `collect_pool` calls (any observed chain
heads, all nonnegative), the stored checkpoint never decreases: each call
leaves it unchanged or sets it to a `current_block` strictly greater than
the previous checkpoint, and the fold over any call sequence is monotone. -/
theorem checkpoint_monotone (ch : Chain) (lookback last : ℤ) (chs : List Chain)
    (hh : 0 ≤ ch.head) (hl : 0 ≤ last) (hall : ∀ c ∈ chs, 0 ≤ c.head) :
    (last ≤ (collect_pool ch lookback last).1 ∧
      ((collect_pool ch lookback last).1 = last ∨
        ((collect_pool ch lookback last).1 = ch.head ∧ last < ch.head))) ∧
    last ≤ syncSeq lookback last chs := by
  have hstep := collect_pool_step ch lookback last hh hl
  refine ⟨⟨hstep.1, hstep.2.2⟩, ?_⟩
  clear hstep hh
  induction chs generalizing last with
  | nil => simp [syncSeq]
  | cons c cs ih =>
    have hc := collect_pool_step c lookback last (hall c (List.mem_cons_self c cs)) hl
    have htail : (collect_pool c lookback last).1 ≤
        syncSeq lookback (collect_pool c lookback last).1 cs :=
      ih _ hc.2.1 (fun d hd => hall d (List.mem_cons_of_mem c hd))
    have : syncSeq lookback last (c :: cs) =
        syncSeq lookback (collect_pool c lookback last).1 cs := by
      simp [syncSeq]
    rw [this]
    exact le_trans hc.1 htail

theorem checkpoint_monotone_witness :
    (0 : ℤ) ≤ syncSeq 30 0 [emptyChain] :=
  (checkpoint_monotone emptyChain 30 0 [emptyChain] (by decide) (by decide)
    (by intro c hc; simp only [List.mem_singleton] at hc; subst hc; decide)).2

theorem normUpdates_count (xs : List (ℕ → ℚ)) (s : StateNormalizer) :
    (normUpdates s xs).count = s.count + xs.length := by
  induction xs generalizing s with
  | nil => simp [normUpdates]
  | cons x t ih =>
    show (normUpdates (s.update x) t).count = s.count + (x :: t).length
    rw [ih]
    simp [StateNormalizer.update]
    omega

theorem normUpdates_clip (xs : List (ℕ → ℚ)) (s : StateNormalizer) :
    (normUpdates s xs).clip_range = s.clip_range := by
  induction xs generalizing s with
  | nil => rfl
  | cons x t ih =>
    show (normUpdates (s.update x) t).clip_range = s.clip_range
    rw [ih]
    rfl

/-- Shift identity for the sum of squared deviations of a list. -/
theorem sum_sq_dev (l : List ℚ) (μ : ℚ) :
    (l.map (fun a => (a - μ) ^ 2)).sum =
      (l.map (fun a => a ^ 2)).sum - 2 * μ * l.sum + l.length * μ ^ 2 := by
  induction l with
  | nil => simp
  | cons a t ih =>
    simp only [List.map_cons, List.sum_cons, List.length_cons, ih]
    push_cast
    ring

/-- The running Welford invariant after a nonempty update sequence: the
mean is the arithmetic mean and the variance accumulator is one plus the
raw second moment minus `S² / n`. -/
theorem normUpdates_mean_var (d : ℕ) (c : ℚ) (i : ℕ) (xs : List (ℕ → ℚ)) :
    xs ≠ [] →
      (normUpdates (StateNormalizer.init d c) xs).mean i =
          (xs.map (fun x => x i)).sum / (xs.length : ℚ) ∧
      (normUpdates (StateNormalizer.init d c) xs).var i =
          1 + (xs.map (fun x => (x i) ^ 2)).sum -
            ((xs.map (fun x => x i)).sum) ^ 2 / (xs.length : ℚ) := by
  induction xs using List.reverseRecOn with
  | nil => intro h; exact absurd rfl h
  | append_singleton l x ih =>
    intro _
    rw [normUpdates, List.foldl_append, List.foldl_cons, List.foldl_nil]
    by_cases hl : l = []
    · subst hl
      simp only [StateNormalizer.update, StateNormalizer.init, List.nil_append,
        List.map_cons, List.map_nil, List.sum_cons, List.sum_nil, List.length_cons,
        List.length_nil]
      norm_num
    · obtain ⟨ihm, ihv⟩ := ih hl
      have hn0 : (l.length : ℚ) ≠ 0 := by
        have : 0 < l.length := List.length_pos.mpr hl
        exact_mod_cast Nat.cast_ne_zero.mpr (by omega)
      have hn1 : (l.length : ℚ) + 1 ≠ 0 := by positivity
      have hcount : (normUpdates (StateNormalizer.init d c) l).count = l.length := by
        rw [normUpdates_count]
        simp [StateNormalizer.init]
      rw [normUpdates] at ihm ihv hcount
      simp only [StateNormalizer.update, hcount, ihm, ihv, List.map_append,
        List.sum_append, List.length_append, List.map_cons, List.map_nil,
        List.sum_cons, List.sum_nil, List.length_cons, List.length_nil]
      constructor
      · push_cast
        field_simp
        ring
      · push_cast
        field_simp
        ring

/-- C4 (amended): after `n ≥ 1` updates from a fresh normalizer, `count`
is `n`, the running mean is the component-wise arithmetic mean, and the
running `var` is `1` plus the sum of squared deviations from the final
mean — one more than the claimed plain sum, because `var` is initialized
to `np.ones`, not zeros; for `n ≥ 2`, `normalize_running` divides the
deviation from the running mean by `sqrt(var / (n - 1) + ε)` and clips. -/
theorem normalizer_update_welford (d : ℕ) (c : ℚ) (xs : List (ℕ → ℚ)) (i : ℕ)
    (y : ℕ → ℚ) (hne : xs ≠ []) :
    (normUpdates (StateNormalizer.init d c) xs).count = xs.length ∧
    (normUpdates (StateNormalizer.init d c) xs).mean i =
      (xs.map (fun x => x i)).sum / (xs.length : ℚ) ∧
    (normUpdates (StateNormalizer.init d c) xs).var i =
      1 + (xs.map (fun x =>
        (x i - (normUpdates (StateNormalizer.init d c) xs).mean i) ^ 2)).sum ∧
    (2 ≤ xs.length →
      normalizeRunning (normUpdates (StateNormalizer.init d c) xs) y i =
        npclipR
          ((((y i - (normUpdates (StateNormalizer.init d c) xs).mean i : ℚ)) : ℝ) /
            Real.sqrt
              ((((normUpdates (StateNormalizer.init d c) xs).var i : ℚ) : ℝ) /
                  ((xs.length : ℝ) - 1) + 1 / 100000000))
          (-(c : ℝ)) (c : ℝ)) := by
  obtain ⟨hm, hv⟩ := normUpdates_mean_var d c i xs hne
  have hcount : (normUpdates (StateNormalizer.init d c) xs).count = xs.length := by
    rw [normUpdates_count]
    simp [StateNormalizer.init]
  have hn0 : (xs.length : ℚ) ≠ 0 := by
    have : 0 < xs.length := List.length_pos.mpr hne
    exact_mod_cast Nat.cast_ne_zero.mpr (by omega)
  refine ⟨hcount, hm, ?_, ?_⟩
  · have hmm : (xs.map (fun x =>
        (x i - (normUpdates (StateNormalizer.init d c) xs).mean i) ^ 2)).sum =
        ((xs.map (fun x => x i)).map
          (fun a => (a - (normUpdates (StateNormalizer.init d c) xs).mean i) ^ 2)).sum := by
      rw [List.map_map]
      rfl
    have hq : ((xs.map (fun x => x i)).map (fun a => a ^ 2)).sum =
        (xs.map (fun x => (x i) ^ 2)).sum := by
      rw [List.map_map]
      rfl
    rw [hmm, sum_sq_dev, List.length_map, hq, hv, hm]
    field_simp
    ring
  · intro h2
    have hnot : ¬ (normUpdates (StateNormalizer.init d c) xs).count < 2 := by omega
    have hclip : (normUpdates (StateNormalizer.init d c) xs).clip_range = c := by
      rw [normUpdates_clip]
      rfl
    rw [normalizeRunning, if_neg hnot, hclip, hcount]

theorem normalizer_update_welford_witness :
    (normUpdates (StateNormalizer.init 1 10) [fun _ => (3 : ℚ)]).count = 1 := by
  have h := (normalizer_update_welford 1 10 [fun _ => (3 : ℚ)] 0 (fun _ => 0)
    (List.cons_ne_nil _ _)).1
  simpa using h

/-- C3 counterexample: with 8 hourly buckets (net flows 0,0,10,0,0,0,0,0)
the code's recent window is the last 6 buckets (it switches to halves only
below 6 buckets, not below 12), giving trend 1, whereas the claimed
half-window split (applied whenever fewer than 12 buckets exist) gives
trend -1. -/
theorem trendChange_window_split_cex :
    trendChange c3swaps = 1 ∧ claimTrendChange c3swaps = -1 ∧
    trendChange c3swaps ≠ claimTrendChange c3swaps := by
  apply of_decide_eq_true; with_unfolding_all rfl

/-- C3 (amended): the trend computation uses, as its recent window, the
most recent 6 hourly buckets whenever at least 6 buckets exist (not 12 as
claimed), and the most recent `⌈n/2⌉` buckets otherwise; the older window
is all preceding buckets; the quotient and its degenerate cases are as
claimed, and fewer than 2 buckets give 0. -/
theorem trendChange_windows_eq (swaps : List Swap) :
    trendChange swaps =
      (if 2 ≤ (sortedHours swaps).length then
        trendFormula
          (((sortedHours swaps).drop
              ((sortedHours swaps).length - trendWindow (sortedHours swaps).length)).map
            (hourNet (flowTotals swaps).hourly)).sum
          (((sortedHours swaps).take
              ((sortedHours swaps).length - trendWindow (sortedHours swaps).length)).map
            (hourNet (flowTotals swaps).hourly)).sum
      else 0) := by
  have hfe : ∀ m : ℕ, Int.fdiv (-(m : ℤ)) 2 = -(((m + 1) / 2 : ℕ) : ℤ) := by
    intro m
    rw [Int.fdiv_eq_ediv _ (by norm_num)]
    omega
  have hfe2 : ∀ m : ℕ, Int.fdiv ((m : ℤ)) 2 = ((m / 2 : ℕ) : ℤ) := by
    intro m
    rw [Int.fdiv_eq_ediv _ (by norm_num)]
    omega
  simp only [trendChange]
  by_cases h2 : 2 ≤ (sortedHours swaps).length
  · simp only [if_pos h2]
    by_cases h6 : 6 ≤ (sortedHours swaps).length
    · have ha : pysliceFrom (sortedHours swaps) (-6) =
          (sortedHours swaps).drop ((sortedHours swaps).length - 6) := by
        rw [pysliceFrom, if_pos (by norm_num : (-6 : ℤ) < 0)]
        congr 1
      have hb : pysliceTo (sortedHours swaps) (-6) =
          (sortedHours swaps).take ((sortedHours swaps).length - 6) := by
        rw [pysliceTo, if_pos (by norm_num : (-6 : ℤ) < 0)]
        congr 1
      simp only [if_pos h6, trendWindow, ha, hb, trendFormula]
    · have ha : pysliceFrom (sortedHours swaps)
          (Int.fdiv (-((sortedHours swaps).length : ℤ)) 2) =
          (sortedHours swaps).drop
            ((sortedHours swaps).length - ((sortedHours swaps).length + 1) / 2) := by
        rw [hfe, pysliceFrom, if_pos (by omega)]
        congr 1
        omega
      have hb : pysliceTo (sortedHours swaps)
          (Int.fdiv ((sortedHours swaps).length : ℤ) 2) =
          (sortedHours swaps).take
            ((sortedHours swaps).length - ((sortedHours swaps).length + 1) / 2) := by
        rw [hfe2, pysliceTo, if_neg (by omega)]
        congr 1
        omega
      simp only [if_neg h6, trendWindow, ha, hb, trendFormula]
  · simp only [if_neg h2]

/-- C4 counterexample: after one observation `x = 3` the running mean is 3
but the running variance accumulator is 1, not the claimed sum of squared
deviations (which is 0), because `var` is initialized to `np.ones`. -/
theorem welford_var_ones_init_cex :
    (normUpdates (StateNormalizer.init 1 10) [fun _ => (3 : ℚ)]).mean 0 = 3 ∧
    (normUpdates (StateNormalizer.init 1 10) [fun _ => (3 : ℚ)]).var 0 = 1 ∧
    ¬ (normUpdates (StateNormalizer.init 1 10) [fun _ => (3 : ℚ)]).var 0 =
        ((3 : ℚ) - (normUpdates (StateNormalizer.init 1 10) [fun _ => (3 : ℚ)]).mean 0) ^ 2 := by
  apply of_decide_eq_true; with_unfolding_all rfl

/-- C6 counterexample: with a single wallet and threshold 300 %, the claim
demands `max(1, floor(1 * 300 / 100)) = 3` whale entries, but the code can
only return the one existing wallet. -/
theorem identify_whales_count_cex :
    (identify_whales [(0, WalletData.empty)] 300).length ≠
      (max 1 ⌊((([(0, WalletData.empty)] : List (ℕ × WalletData)).length : ℚ) * 300 / 100)⌋).toNat := by
  apply of_decide_eq_true; with_unfolding_all rfl

/-- Under `max(1, ·)`, Python's toward-zero `int()` agrees with the
mathematical floor (they differ only strictly between -1 and 0, where both
lose to the 1). -/
theorem pyint_max_one (q : ℚ) : max 1 (pyint q) = max 1 ⌊q⌋ := by
  by_cases h : 0 ≤ q
  · simp [pyint, h]
  · push_neg at h
    have hceil : ⌈q⌉ ≤ 0 := Int.ceil_le.mpr (by exact_mod_cast le_of_lt h)
    have hfloor : ⌊q⌋ ≤ 0 := le_trans (Int.floor_le_ceil q) hceil
    rw [pyint, if_neg (not_le.mpr h)]
    omega

/-- `identify_whales` on a nonempty map is the mapped prefix of the
descending stable sort. -/
theorem identify_whales_eq (wa : List (ℕ × WalletData)) (pct : ℚ) (hne : wa ≠ []) :
    identify_whales wa pct =
      ((List.insertionSort volGE
          (wa.map (fun p => (p.1, p.2.buy_volume_token0 + p.2.sell_volume_token0, p.2)))).take
        ((max 1 (pyint ((wa.length : ℚ) * pct / 100))).toNat)).map mkWhale := by
  cases wa with
  | nil => exact absurd rfl hne
  | cons a l => rfl

/-- C6 (amended): on the empty wallet map, `identify_whales` returns the
empty list; on a nonempty wallet map of `N` wallets, it returns exactly
`min N (max 1 ⌊N * pct / 100⌋)` entries (the claimed
`max 1 ⌊N * pct / 100⌋`, additionally capped by the number of existing
wallets, which matters only when `pct > 100`); the entries are sorted by
total token0 volume in descending order, and every wallet left out has
total volume at most that of every returned whale. -/
theorem identify_whales_spec (wa : List (ℕ × WalletData)) (pct : ℚ) (hne : wa ≠ []) :
    identify_whales ([] : List (ℕ × WalletData)) pct = [] ∧
    (identify_whales wa pct).length =
      min wa.length (max 1 ⌊((wa.length : ℚ) * pct / 100)⌋).toNat ∧
    List.Sorted (fun a b : Whale => b.total_volume ≤ a.total_volume)
      (identify_whales wa pct) ∧
    ∃ rest : List ℤ,
      (((identify_whales wa pct).map Whale.total_volume) ++ rest).Perm
        (wa.map (fun p => p.2.buy_volume_token0 + p.2.sell_volume_token0)) ∧
      ∀ v ∈ rest, ∀ w ∈ identify_whales wa pct, v ≤ w.total_volume := by
  have hk : (max 1 (pyint ((wa.length : ℚ) * pct / 100))).toNat =
      (max 1 ⌊((wa.length : ℚ) * pct / 100)⌋).toNat := by
    rw [pyint_max_one]
  rw [identify_whales_eq wa pct hne]
  set vols := wa.map (fun p => (p.1, p.2.buy_volume_token0 + p.2.sell_volume_token0, p.2))
    with hvols
  set k := (max 1 (pyint ((wa.length : ℚ) * pct / 100))).toNat with hkdef
  have hperm : (List.insertionSort volGE vols).Perm vols :=
    List.perm_insertionSort volGE vols
  have hsort : List.Sorted volGE (List.insertionSort volGE vols) :=
    List.sorted_insertionSort volGE vols
  refine ⟨rfl, ?_, ?_, ?_⟩
  · rw [List.length_map, List.length_take, hperm.length_eq, List.length_map, hk,
      min_comm]
  · rw [List.Sorted, List.pairwise_map]
    exact List.Pairwise.sublist (List.take_sublist k _) hsort
  · refine ⟨(( List.insertionSort volGE vols).drop k).map (fun t => t.2.1), ?_, ?_⟩
    · have h3 : (Whale.total_volume ∘ mkWhale) =
          (fun t : ℕ × ℤ × WalletData => t.2.1) := rfl
      rw [List.map_map, h3, ← List.map_append, List.take_append_drop]
      have h1 : ((List.insertionSort volGE vols).map
          (fun t : ℕ × ℤ × WalletData => t.2.1)).Perm (vols.map (fun t => t.2.1)) :=
        hperm.map _
      have h2 : vols.map (fun t : ℕ × ℤ × WalletData => t.2.1) =
          wa.map (fun p => p.2.buy_volume_token0 + p.2.sell_volume_token0) := by
        rw [hvols, List.map_map]
        rfl
      exact h2 ▸ h1
    · intro v hv w hw
      obtain ⟨t, ht, rfl⟩ := List.mem_map.mp hv
      obtain ⟨u, hu, rfl⟩ := List.mem_map.mp hw
      have hsplit := hsort
      rw [List.Sorted, ← List.take_append_drop k (List.insertionSort volGE vols),
        List.pairwise_append] at hsplit
      exact hsplit.2.2 u hu t ht

theorem identify_whales_spec_witness :
    (identify_whales [(0, WalletData.empty)] 10).length = 1 := by
  have h := (identify_whales_spec [(0, WalletData.empty)] 10 (by simp)).2.1
  rw [h]
  apply of_decide_eq_true; with_unfolding_all rfl

/-- Updating a wallet map at a key rewrites exactly that key's entry. -/
theorem walletOf_upsert_self (m : List (ℕ × WalletData)) (k : ℕ)
    (f : WalletData → WalletData) :
    walletOf (upsertWallet m k f) k = f (walletOf m k) := by
  induction m with
  | nil => simp [upsertWallet, walletOf, List.find?]
  | cons p rest ih =>
    obtain ⟨k', v⟩ := p
    by_cases h : k' = k
    · subst h
      simp [upsertWallet, walletOf, List.find?]
    · have hbeq : (k' == k) = false := beq_false_of_ne h
      simp only [upsertWallet, if_neg h]
      rw [walletOf, walletOf]
      simp only [List.find?, hbeq]
      simpa [walletOf] using ih

/-- Updating a wallet map at a key leaves every other key's entry alone. -/
theorem walletOf_upsert_other (m : List (ℕ × WalletData)) (k k' : ℕ)
    (f : WalletData → WalletData) (h : k' ≠ k) :
    walletOf (upsertWallet m k f) k' = walletOf m k' := by
  have hbeq : (k == k') = false := beq_false_of_ne (Ne.symm h)
  induction m with
  | nil =>
    rw [upsertWallet, walletOf, walletOf]
    simp only [List.find?, hbeq]
  | cons p rest ih =>
    obtain ⟨k'', v⟩ := p
    by_cases h2 : k'' = k
    · subst h2
      simp only [upsertWallet, if_pos rfl]
      rw [walletOf, walletOf]
      simp only [List.find?, hbeq]
    · simp only [upsertWallet, if_neg h2]
      rw [walletOf, walletOf]
      by_cases h3 : k'' = k'
      · subst h3
        simp only [List.find?, beq_self_eq_true]
      · have hbeq3 : (k'' == k') = false := beq_false_of_ne h3
        simp only [List.find?, hbeq3]
        simpa [walletOf] using ih

theorem analyze_append_one (swaps : List Swap) (s : Swap) :
    analyze_wallet_activity (swaps ++ [s]) =
      upsertWallet (analyze_wallet_activity swaps) s.recipient (walletUpd s) := by
  simp [analyze_wallet_activity, List.foldl_append]

theorem flowTotals_append_one (swaps : List Swap) (s : Swap) :
    flowTotals (swaps ++ [s]) = flowStep (flowTotals swaps) s := by
  simp [flowTotals, List.foldl_append]

/-- C10 (amended): a swap with `amount0 = 0` is counted as a sell by both
`analyze_wallet_activity` and `compute_order_flow_metrics` — the wallet's
and the aggregate `sell_count` increment — while every token0 volume and
the token0 net position stay unchanged; the wallet's token1 sell volume
moves by `|amount1|` and the token1 net position by `-amount1` (zero only
when `amount1` is zero). -/
theorem zero_amount0_counts_as_sell (swaps : List Swap) (s : Swap)
    (hz : s.amount0 = 0) :
    (walletOf (analyze_wallet_activity (swaps ++ [s])) s.recipient).sell_count =
      (walletOf (analyze_wallet_activity swaps) s.recipient).sell_count + 1 ∧
    (walletOf (analyze_wallet_activity (swaps ++ [s])) s.recipient).buy_count =
      (walletOf (analyze_wallet_activity swaps) s.recipient).buy_count ∧
    (walletOf (analyze_wallet_activity (swaps ++ [s])) s.recipient).buy_volume_token0 =
      (walletOf (analyze_wallet_activity swaps) s.recipient).buy_volume_token0 ∧
    (walletOf (analyze_wallet_activity (swaps ++ [s])) s.recipient).sell_volume_token0 =
      (walletOf (analyze_wallet_activity swaps) s.recipient).sell_volume_token0 ∧
    (walletOf (analyze_wallet_activity (swaps ++ [s])) s.recipient).buy_volume_token1 =
      (walletOf (analyze_wallet_activity swaps) s.recipient).buy_volume_token1 ∧
    (walletOf (analyze_wallet_activity (swaps ++ [s])) s.recipient).sell_volume_token1 =
      (walletOf (analyze_wallet_activity swaps) s.recipient).sell_volume_token1 +
        |s.amount1| ∧
    (walletOf (analyze_wallet_activity (swaps ++ [s])) s.recipient).net_token0 =
      (walletOf (analyze_wallet_activity swaps) s.recipient).net_token0 ∧
    (walletOf (analyze_wallet_activity (swaps ++ [s])) s.recipient).net_token1 =
      (walletOf (analyze_wallet_activity swaps) s.recipient).net_token1 - s.amount1 ∧
    (∀ k, k ≠ s.recipient →
      walletOf (analyze_wallet_activity (swaps ++ [s])) k =
        walletOf (analyze_wallet_activity swaps) k) ∧
    (flowTotals (swaps ++ [s])).sell_count = (flowTotals swaps).sell_count + 1 ∧
    (flowTotals (swaps ++ [s])).buy_count = (flowTotals swaps).buy_count ∧
    (flowTotals (swaps ++ [s])).total_buy_volume =
      (flowTotals swaps).total_buy_volume ∧
    (flowTotals (swaps ++ [s])).total_sell_volume =
      (flowTotals swaps).total_sell_volume := by
  have hnlt : ¬ s.amount0 < 0 := by omega
  rw [analyze_append_one, flowTotals_append_one]
  rw [walletOf_upsert_self]
  refine ⟨?_, ?_, ?_, ?_, ?_, ?_, ?_, ?_, ?_, ?_, ?_, ?_, ?_⟩ <;>
    first
      | (intro k hk; exact walletOf_upsert_other _ _ _ _ hk)
      | simp [walletUpd, flowStep, hz, hnlt, sub_eq_add_neg]

theorem zero_amount0_counts_as_sell_witness :
    (walletOf (analyze_wallet_activity ([] ++ [zeroAmt0Swap])) zeroAmt0Swap.recipient).sell_count =
      (walletOf (analyze_wallet_activity []) zeroAmt0Swap.recipient).sell_count + 1 :=
  (zero_amount0_counts_as_sell [] zeroAmt0Swap rfl).1

/-- C10 counterexample: a swap with `amount0 = 0` and `amount1 = -7` is
counted as a sell but contributes `7`, not zero, to the wallet's
`sell_volume_token1` — the claim's "zero to every buy/sell volume" fails
for the token1 volumes. -/
theorem zero_amount0_token1_volume_cex :
    zeroAmt0Swap.amount0 = 0 ∧
    (walletOf (analyze_wallet_activity [zeroAmt0Swap]) 7).sell_count = 1 ∧
    (walletOf (analyze_wallet_activity [zeroAmt0Swap]) 7).sell_volume_token1 = 7 ∧
    ((7 : ℤ) ≠ 0) := by
  apply of_decide_eq_true; with_unfolding_all rfl
